import Mathlib

/-!
Verification of the codebraid-mcp session / connection-hub lifecycle manager.

The Go source is embedded shallowly:
- Go maps (`cfg.McpServers`, `hub.clients`, `m.sessions`, `session.Libs`)
  become association lists kept in iteration order;
- the filesystem becomes an explicit `Fs` state (allocated directories plus
  a path → contents map) and open provider connections an explicit list, both
  carried in a `World` record;
- fallible external calls (`NewMcpClient`, `os.MkdirTemp`, `os.Mkdir`,
  `generator.GenerateFile`, `os.WriteFile`, `os.RemoveAll`) draw their
  outcomes from an `Env` oracle record, so every error path of the source is
  reachable in the model;
- since every registry mutation and the whole construction sequence run under
  the registry's write lock, concurrent callers are modelled as a serialized
  sequence of calls (the order the lock admits them).
-/

set_option autoImplicit false

namespace CodeBraid

/-- A tool exposed by an MCP server (`mcp.Tool`): only the two fields the
core reads, its name and description. -/
structure Tool where
  name : String
  description : String
deriving DecidableEq, Repr

/-- Embeds `client.ToolInfo` (clienthub.go): basic tool information. -/
structure ToolInfo where
  name : String
  description : String
deriving DecidableEq, Repr

/-- One `client.McpClient`: `GetTools` returns its last-known catalog `tools`,
and `Close` returns `closeErr` (`none` on success). -/
structure McpClient where
  tools : List Tool
  closeErr : Option String
deriving DecidableEq, Repr

/-- Embeds `client.McpClientHub` (clienthub.go): the `clients` map from server name
to client, modelled as an association list in iteration order. -/
structure McpClientHub where
  clients : List (String × McpClient)
deriving DecidableEq, Repr

/-- Association-list lookup, modelling a Go map read `m[k]`. -/
def lookupA {α : Type} : List (String × α) → String → Option α
  | [], _ => none
  | p :: rest, k => if p.1 = k then some p.2 else lookupA rest k

/-- Association-list update, modelling a Go map write `m[k] = v`. -/
def setAssoc {α : Type} : List (String × α) → String → α → List (String × α)
  | [], k, v => [(k, v)]
  | p :: rest, k, v => if p.1 = k then (k, v) :: rest else p :: setAssoc rest k v

@[simp] theorem lookupA_nil {α : Type} (k : String) : lookupA ([] : List (String × α)) k = none :=
  rfl

@[simp] theorem lookupA_cons {α : Type} (p : String × α) (rest : List (String × α)) (k : String) :
    lookupA (p :: rest) k = if p.1 = k then some p.2 else lookupA rest k :=
  rfl

theorem lookupA_setAssoc_self {α : Type} (l : List (String × α)) (k : String) (v : α) :
    lookupA (setAssoc l k v) k = some v := by
  induction l with
  | nil => simp [setAssoc]
  | cons p rest ih =>
    by_cases h : p.1 = k
    · simp [setAssoc, h]
    · simp [setAssoc, h, ih]

theorem lookupA_setAssoc_ne {α : Type} (l : List (String × α)) (k q : String) (v : α)
    (hne : q ≠ k) : lookupA (setAssoc l k v) q = lookupA l q := by
  have hkq : ¬ k = q := fun h => hne h.symm
  induction l with
  | nil => simp [setAssoc, hkq]
  | cons p rest ih =>
    by_cases h : p.1 = k
    · have hpq : ¬ p.1 = q := by rw [h]; exact hkq
      simp [setAssoc, h, hpq, hkq]
    · simp only [setAssoc, if_neg h]
      by_cases hq : p.1 = q <;> simp [hq, ih]

/-- The scan inside `McpClientHub.FindToolServer` (clienthub.go lines 59-65):
for each client in order, look through its catalog for the requested name. -/
def findToolLoop (toolName : String) : List (String × McpClient) → Except String String
  | [] => .error ("tool " ++ toolName ++ " not found in any server")
  | p :: rest =>
    if p.2.tools.any (fun t => t.name == toolName) then .ok p.1
    else findToolLoop toolName rest

/-- Embeds `McpClientHub.FindToolServer` (clienthub.go): finds which server has a
specific tool; error when no server's catalog contains it. -/
def McpClientHub.FindToolServer (ch : McpClientHub) (toolName : String) : Except String String :=
  findToolLoop toolName ch.clients

/-- Embeds `McpClientHub.ListTools` (clienthub.go): all tools from all servers,
a snapshot of every client's current catalog. -/
def McpClientHub.ListTools (ch : McpClientHub) : List (String × List Tool) :=
  ch.clients.map (fun p => (p.1, p.2.tools))

/-- Embeds `McpClientHub.GetToolsWithDescription` (clienthub.go): tools with their
descriptions, projected into `ToolInfo`. -/
def McpClientHub.GetToolsWithDescription (ch : McpClientHub) : List (String × List ToolInfo) :=
  ch.clients.map (fun p => (p.1, p.2.tools.map (fun t => ToolInfo.mk t.name t.description)))

theorem findToolLoop_ok (tn : String) (l : List (String × McpClient)) (name : String)
    (h : findToolLoop tn l = .ok name) :
    ∃ c, (name, c) ∈ l ∧ ∃ t, t ∈ c.tools ∧ t.name = tn := by
  induction l with
  | nil => simp [findToolLoop] at h
  | cons p rest ih =>
    rw [findToolLoop] at h
    by_cases hc : p.2.tools.any (fun t => t.name == tn) = true
    · rw [if_pos hc] at h
      obtain ⟨t, ht, hname⟩ := List.any_eq_true.mp hc
      have hn : name = p.1 := (Except.ok.inj h).symm
      refine ⟨p.2, ?_, t, ht, by simpa using hname⟩
      rw [hn]
      exact List.mem_cons_self p rest
    · rw [if_neg hc] at h
      obtain ⟨c, hc', ht⟩ := ih h
      exact ⟨c, List.mem_cons_of_mem _ hc', ht⟩

theorem findToolLoop_error_iff (tn : String) (l : List (String × McpClient)) :
    (∃ e, findToolLoop tn l = .error e) ↔
      ∀ p, p ∈ l → ∀ t, t ∈ p.2.tools → t.name ≠ tn := by
  induction l with
  | nil => simp [findToolLoop]
  | cons p rest ih =>
    rw [findToolLoop]
    by_cases hc : p.2.tools.any (fun t => t.name == tn) = true
    · obtain ⟨t, ht, hname⟩ := List.any_eq_true.mp hc
      simp only [if_pos hc]
      constructor
      · rintro ⟨e, he⟩; cases he
      · intro h
        exact absurd (by simpa using hname) (h p (List.mem_cons_self p rest) t ht)
    · simp only [if_neg hc]
      rw [ih]
      constructor
      · intro h q hq t ht
        rcases List.mem_cons.mp hq with hq | hq
        · subst hq
          intro hn
          exact hc (List.any_eq_true.mpr ⟨t, ht, by simpa using hn⟩)
        · exact h q hq t ht
      · intro h q hq t ht
        exact h q (List.mem_cons_of_mem _ hq) t ht

/-- C9: for every hub state and tool name, `FindToolServer` either returns a
provider whose catalog contains a tool with exactly the requested name, or
returns a tool-not-found error exactly when no provider's catalog contains
that name. -/
theorem c9_find_tool_server (ch : McpClientHub) (toolName : String) :
    (∀ name, ch.FindToolServer toolName = .ok name →
      ∃ c, (name, c) ∈ ch.clients ∧ ∃ t, t ∈ c.tools ∧ t.name = toolName) ∧
    ((∃ e, ch.FindToolServer toolName = .error e) ↔
      ∀ p, p ∈ ch.clients → ∀ t, t ∈ p.2.tools → t.name ≠ toolName) :=
  ⟨fun name h => findToolLoop_ok toolName ch.clients name h,
   findToolLoop_error_iff toolName ch.clients⟩

/-- Witness for C9 at a concrete hub: the tool is found on server "a", and
the conclusion produces the containing catalog entry. -/
theorem c9_find_tool_server_witness :
    ∃ c, ("a", c) ∈ (McpClientHub.mk [("a", McpClient.mk [Tool.mk "t1" "d"] none)]).clients ∧
      ∃ t, t ∈ c.tools ∧ t.name = "t1" :=
  (c9_find_tool_server (McpClientHub.mk [("a", McpClient.mk [Tool.mk "t1" "d"] none)]) "t1").1
    "a" (by rfl)

/-- C10: `GetToolsWithDescription` has exactly the provider keys of
`ListTools`, and per provider its list is, position by position, the
name/description projection of that provider's tool list. -/
theorem c10_tools_with_description (ch : McpClientHub) :
    ch.GetToolsWithDescription.map Prod.fst = ch.ListTools.map Prod.fst ∧
    ch.GetToolsWithDescription =
      ch.ListTools.map (fun p => (p.1, p.2.map (fun t => ToolInfo.mk t.name t.description))) := by
  refine ⟨?_, ?_⟩ <;>
    simp [McpClientHub.GetToolsWithDescription, McpClientHub.ListTools]

/-- The on-disk state: allocated directories and a path → contents map for
written files. -/
structure Fs where
  dirs : List String
  files : List (String × String)
deriving DecidableEq, Repr

/-- The resource state threaded through the model: the filesystem plus the
multiset of currently open provider connections (one entry per successful
`NewMcpClient`, removed again when that client is closed). -/
structure World where
  fs : Fs
  openConns : List String
deriving DecidableEq, Repr

/-- Outcome oracle for the external collaborators: each fallible call the
source makes (`NewMcpClient`, `os.MkdirTemp`, `os.Mkdir`,
`generator.GenerateFile`, `os.WriteFile`, `os.RemoveAll`) draws its outcome
here, so every error path of the source is reachable. `servers` is
`cfg.McpServers` in iteration order; `tmpDirName` is the fresh path
`os.MkdirTemp` returns for a session; `mcpTypesContent` and `rspackContent`
are `GenerateMCPTypesFile()` and `bundler.GetEmbeddedConfig()`. -/
structure Env where
  servers : List String
  connect : String → Except String McpClient
  tmpDirErr : Option String
  tmpDirName : String → String
  mkdirErr : String → Option String
  generate : String → List Tool → Except String String
  writeErr : String → Option String
  removeErr : String → Option String
  mcpTypesContent : String
  rspackContent : String

/-- Whether `path` is the directory `root` itself or lies beneath it; these
are exactly the entries `os.RemoveAll root` removes. -/
def underRoot (root path : String) : Bool :=
  path == root || List.isPrefixOf (root ++ "/").data path.data

/-- Effect of `os.RemoveAll root` on the filesystem state (the successful case). -/
def removeTree (fs : Fs) (root : String) : Fs :=
  { dirs := fs.dirs.filter (fun d => ! underRoot root d),
    files := fs.files.filter (fun f => ! underRoot root f.1) }

/-- Embeds `os.RemoveAll` with its oracle outcome; every call site in the source
either ignores or merely logs its error, so only the success case mutates
the filesystem. -/
def removeAllW (env : Env) (w : World) (root : String) : World :=
  match env.removeErr root with
  | some _ => w
  | none => { w with fs := removeTree w.fs root }

/-- Embeds `os.WriteFile path content`: whole-file replace on success, no change on
failure. -/
def writeW (env : Env) (w : World) (path content : String) : World × Option String :=
  match env.writeErr path with
  | some e => (w, some e)
  | none => ({ w with fs := { w.fs with files := setAssoc w.fs.files path content } }, none)

/-- Allocate a directory (`os.MkdirTemp` / `os.Mkdir` success case). -/
def mkdirW (w : World) (path : String) : World :=
  { w with fs := { w.fs with dirs := w.fs.dirs ++ [path] } }

/-- The loop of `McpClientHub.Connect` (clienthub.go lines 30-36): for each
configured server, `NewMcpClient`; the first failure aborts the whole call,
leaving the clients connected so far in the hub and their connections open. -/
def connectLoop (env : Env) : List String → List (String × McpClient) → World →
    List (String × McpClient) × World × Option String
  | [], acc, w => (acc, w, none)
  | n :: rest, acc, w =>
    match env.connect n with
    | .error e => (acc, w, some ("failed to connect to server " ++ n ++ ": " ++ e))
    | .ok c =>
        connectLoop env rest (acc ++ [(n, c)]) { w with openConns := w.openConns ++ [n] }

/-- Embeds `McpClientHub.Connect` (clienthub.go): establishes connections to all
configured MCP servers, populating the hub's clients map. -/
def McpClientHub.Connect (env : Env) (ch : McpClientHub) (w : World) :
    McpClientHub × World × Option String :=
  match connectLoop env env.servers ch.clients w with
  | (clients, w', err) => (⟨clients⟩, w', err)

/-- The error list `McpClientHub.Close` (clienthub.go lines 108-113) gathers:
one entry per client whose `Close` fails, in iteration order. -/
def hubCloseErrs : List (String × McpClient) → List String
  | [] => []
  | p :: rest =>
    match p.2.closeErr with
    | some e => ("failed to close client " ++ p.1 ++ ": " ++ e) :: hubCloseErrs rest
    | none => hubCloseErrs rest

/-- Release one occurrence of an open connection. -/
def removeOneConn : List String → String → List String
  | [], _ => []
  | y :: ys, x => if y = x then ys else y :: removeOneConn ys x

/-- Closing every client releases its connection regardless of whether that
client's `Close` reports an error (the loop never aborts). -/
def closeConns : List (String × McpClient) → List String → List String
  | [], conns => conns
  | p :: rest, conns => closeConns rest (removeOneConn conns p.1)

/-- The aggregated error `McpClientHub.Close` returns: `nil` when no client
close failed, otherwise one error wrapping the whole list. -/
def hubCloseErrOpt (clients : List (String × McpClient)) : Option String :=
  match hubCloseErrs clients with
  | [] => none
  | e :: rest => some ("errors closing clients: " ++ String.intercalate "; " (e :: rest))

/-- Embeds `McpClientHub.Close` (clienthub.go): closes every client connection,
aggregating per-client errors into one reported error. -/
def McpClientHub.Close (ch : McpClientHub) (w : World) : World × Option String :=
  ({ w with openConns := closeConns ch.clients w.openConns }, hubCloseErrOpt ch.clients)

/-- Modelled from the spec: `McpClientHub.Tools`, called by
`initializeSessionBundleDir`, has no body under src (only `ListTools` has);
per the spec's snapshot contract it is the same provider → catalog mapping. -/
def McpClientHub.Tools (ch : McpClientHub) : List (String × List Tool) :=
  ch.clients.map (fun p => (p.1, p.2.tools))

/-- Modelled from the spec: `McpClientHub.ServerTools`, called by
`regenerateLibForServer`, is absent from src; per the spec ("re-fetch P's
current catalog from the hub") it returns the named provider's last-known
catalog together with a found flag, here an `Option`. -/
def McpClientHub.ServerTools (ch : McpClientHub) (serverName : String) : Option (List Tool) :=
  (lookupA ch.clients serverName).map (fun c => c.tools)

/-- Embeds `session.SessionContext` as the session manager uses it: the id, the
owned hub, the in-memory provider → artifact map `Libs`, and the workspace
root `BundleDir` (empty until the workspace is built). -/
structure SessionContext where
  sessionID : String
  hub : McpClientHub
  libs : List (String × String)
  bundleDir : String
deriving DecidableEq, Repr

/-- Embeds `session.Manager`: the registry map from session id to session (its
`config` field lives in `Env.servers` here). -/
structure Manager where
  sessions : List (String × SessionContext)
deriving DecidableEq, Repr

/-- Go `delete(m, k)` on the registry map. -/
def eraseKey {α : Type} (l : List (String × α)) (k : String) : List (String × α) :=
  l.filter (fun p => ! (p.1 == k))

/-- The per-provider render-and-write loop of `initializeSessionBundleDir`
(manager lines 165-181): render each provider's artifact, record it in the
fresh `libs` map, write it under `lib/`; the first failure removes the whole
bundle directory and aborts. -/
def genLoop (env : Env) (bundleDir libDir : String) :
    List (String × List Tool) → List (String × String) → World →
    World × Except String (List (String × String))
  | [], libs, w => (w, .ok libs)
  | p :: rest, libs, w =>
    match env.generate p.1 p.2 with
    | .error e =>
        (removeAllW env w bundleDir,
         .error ("failed to generate lib for " ++ p.1 ++ ": " ++ e))
    | .ok file =>
        match writeW env w (libDir ++ "/" ++ p.1 ++ ".ts") file with
        | (w', some e) =>
            (removeAllW env w' bundleDir,
             .error ("failed to write lib " ++ p.1 ++ ": " ++ e))
        | (w', none) => genLoop env bundleDir libDir rest (setAssoc libs p.1 file) w'

/-- Embeds `Manager.initializeSessionBundleDir` (manager lines 146-204): create the
bundle directory and its `lib/` sub-directory, render and write one artifact
per connected provider, then write the shared `mcp-types.ts` and the rspack
config; any step failure removes the whole bundle directory before returning
the error. On success it yields the session's new `Libs` map and
`BundleDir`. -/
def initializeSessionBundleDir (env : Env) (sessionID : String) (hub : McpClientHub)
    (w : World) : World × Except String (List (String × String) × String) :=
  match env.tmpDirErr with
  | some e => (w, .error ("failed to create bundle dir: " ++ e))
  | none =>
    let bundleDir := env.tmpDirName sessionID
    let w := mkdirW w bundleDir
    let libDir := bundleDir ++ "/lib"
    match env.mkdirErr libDir with
    | some e => (removeAllW env w bundleDir, .error ("failed to create lib dir: " ++ e))
    | none =>
      let w := mkdirW w libDir
      match genLoop env bundleDir libDir hub.Tools [] w with
      | (w, .error e) => (w, .error e)
      | (w, .ok libs) =>
        match writeW env w (libDir ++ "/mcp-types.ts") env.mcpTypesContent with
        | (w', some e) =>
            (removeAllW env w' bundleDir, .error ("failed to write mcp-types.ts: " ++ e))
        | (w', none) =>
          match writeW env w' (bundleDir ++ "/rspack.config.ts") env.rspackContent with
          | (w'', some e) =>
              (removeAllW env w'' bundleDir, .error ("failed to write rspack config: " ++ e))
          | (w'', none) => (w'', .ok (libs, bundleDir))

/-- Embeds `Manager.GetOrCreateSession` (manager lines 33-82): read-locked fast
lookup; if absent, under the write lock re-check, connect a fresh hub —
returning the connect error without closing the partially connected hub —
then build the workspace, closing the hub if that fails, and only then
publish the session. In the serialized model the write-locked re-check
coincides with the first lookup. -/
def Manager.GetOrCreateSession (env : Env) (m : Manager) (w : World) (sessionID : String) :
    Manager × World × Except String SessionContext :=
  match lookupA m.sessions sessionID with
  | some s => (m, w, .ok s)
  | none =>
    match McpClientHub.Connect env ⟨[]⟩ w with
    | (_, w1, some e) => (m, w1, .error ("failed to connect client hub: " ++ e))
    | (hub, w1, none) =>
      match initializeSessionBundleDir env sessionID hub w1 with
      | (w2, .error e) =>
        match hub.Close w2 with
        | (w3, _) =>
          (m, w3, .error ("failed to initialize session bundle directory: " ++ e))
      | (w2, .ok (libs, bundleDir)) =>
        let s : SessionContext := ⟨sessionID, hub, libs, bundleDir⟩
        (⟨setAssoc m.sessions sessionID s⟩, w2, .ok s)

/-- Embeds `Manager.GetSession` (manager lines 85-89): read-locked lookup, never
constructs. -/
def Manager.GetSession (m : Manager) (sessionID : String) : Option SessionContext :=
  lookupA m.sessions sessionID

/-- Embeds `Manager.DeleteSession` (manager lines 92-115): not-found error if
absent; otherwise close the hub — returning early with its error if the
close reports one — then remove the bundle directory (removal errors only
logged) and delete the map entry. -/
def Manager.DeleteSession (env : Env) (m : Manager) (w : World) (sessionID : String) :
    Manager × World × Option String :=
  match lookupA m.sessions sessionID with
  | none => (m, w, some ("session " ++ sessionID ++ " not found"))
  | some s =>
    match s.hub.Close w with
    | (w', some e) => (m, w', some ("failed to close client hub: " ++ e))
    | (w', none) =>
      let w'' := if s.bundleDir = "" then w' else removeAllW env w' s.bundleDir
      (⟨eraseKey m.sessions sessionID⟩, w'', none)

/-- The iteration body of `Manager.CloseAll` (manager lines 123-134): close
each session's hub, collecting a `session <id>: <err>` entry when the close
fails, then remove its bundle directory, removal errors only logged; the
iteration never aborts. -/
def closeAllLoop (env : Env) : List (String × SessionContext) → World → List String →
    World × List String
  | [], w, errs => (w, errs)
  | p :: rest, w, errs =>
    closeAllLoop env rest
      (if p.2.bundleDir = "" then (p.2.hub.Close w).1
       else removeAllW env (p.2.hub.Close w).1 p.2.bundleDir)
      (match (p.2.hub.Close w).2 with
       | some e => errs ++ ["session " ++ p.1 ++ ": " ++ e]
       | none => errs)

/-- Embeds `Manager.CloseAll` (manager lines 118-143): iterates all sessions with
the close+remove sequence, replaces the map by an empty one, and returns the
collected per-session error list (the source wraps a non-empty list into one
`errors closing sessions: ...` error; the empty list is the nil error). -/
def Manager.CloseAll (env : Env) (m : Manager) (w : World) :
    Manager × World × List String :=
  (⟨[]⟩, (closeAllLoop env m.sessions w []).1, (closeAllLoop env m.sessions w []).2)

/-- Embeds `regenerateLibForServer` (manager lines 208-237): under the session's
own lock, re-fetch the server's catalog, re-render its artifact, replace the
in-memory `Libs` entry, then overwrite the on-disk file (skipped when the
session has no bundle directory). The in-memory entry is updated before the
disk write is attempted. -/
def regenerateLibForServer (env : Env) (s : SessionContext) (w : World)
    (serverName : String) : SessionContext × World × Option String :=
  match s.hub.ServerTools serverName with
  | none => (s, w, some ("server " ++ serverName ++ " not found"))
  | some tools =>
    match env.generate serverName tools with
    | .error e => (s, w, some ("failed to generate TypeScript: " ++ e))
    | .ok file =>
      if s.bundleDir = "" then ({ s with libs := setAssoc s.libs serverName file }, w, none)
      else
        match writeW env w (s.bundleDir ++ "/lib/" ++ serverName ++ ".ts") file with
        | (w', some e) =>
            ({ s with libs := setAssoc s.libs serverName file }, w',
             some ("failed to write lib to disk: " ++ e))
        | (w', none) => ({ s with libs := setAssoc s.libs serverName file }, w', none)

/-- An environment whose config names servers "a" and "b": "a" connects,
"b" fails to connect; every filesystem operation succeeds. -/
def envLeak : Env :=
  { servers := ["a", "b"]
    connect := fun n => if n = "a" then .ok ⟨[], none⟩ else .error "connection refused"
    tmpDirErr := none
    tmpDirName := fun id => "/tmp/codebraid-" ++ id
    mkdirErr := fun _ => none
    generate := fun _ _ => .ok "src"
    writeErr := fun _ => none
    removeErr := fun _ => none
    mcpTypesContent := "types"
    rspackContent := "cfg" }

/-- C1: refuted on the code — when `Connect` fails after establishing some
connections, `GetOrCreateSession` returns the connect error without closing
the hub, so the connection to server "a" established during the same failed
`Connect` call remains open (`openConns = ["a"]` after the error return). -/
theorem c1_connect_failure_leaks_connection :
    Manager.GetOrCreateSession envLeak ⟨[]⟩ ⟨⟨[], []⟩, []⟩ "s1" =
      (⟨[]⟩, ⟨⟨[], []⟩, ["a"]⟩,
       .error "failed to connect client hub: failed to connect to server b: connection refused") :=
  rfl

theorem str_append_cancel_left (a x y : String) (h : a ++ x = a ++ y) : x = y := by
  have hd : (a ++ x).data = (a ++ y).data := by rw [h]
  rw [String.data_append, String.data_append] at hd
  have hxy := List.append_cancel_left hd
  cases x with
  | mk dx => cases y with
    | mk dy => exact congrArg String.mk (by simpa using hxy)

theorem str_append_cancel_right (x y b : String) (h : x ++ b = y ++ b) : x = y := by
  have hd : (x ++ b).data = (y ++ b).data := by rw [h]
  rw [String.data_append, String.data_append] at hd
  have hxy := List.append_cancel_right hd
  cases x with
  | mk dx => cases y with
    | mk dy => exact congrArg String.mk (by simpa using hxy)

/-- Two per-provider artifact paths in the same workspace coincide only for
the same provider name. -/
theorem libPath_inj (base q r : String)
    (h : base ++ "/lib/" ++ q ++ ".ts" = base ++ "/lib/" ++ r ++ ".ts") : q = r :=
  str_append_cancel_left (base ++ "/lib/") q r (str_append_cancel_right _ _ ".ts" h)

/-- The session, a server catalog, a world and an environment used to
exercise `regenerateLibForServer`: provider "p" has artifact "old" both in
memory and on disk. -/
def sessC5 : SessionContext :=
  ⟨"s", ⟨[("p", ⟨[⟨"t", "d"⟩], none⟩)]⟩, [("p", "old")], "/tmp/b"⟩

def wC5 : World := ⟨⟨["/tmp/b", "/tmp/b/lib"], [("/tmp/b/lib/p.ts", "old")]⟩, ["p"]⟩

/-- Renders "new" but every disk write fails. -/
def envC5 : Env :=
  { servers := ["p"]
    connect := fun _ => .ok ⟨[], none⟩
    tmpDirErr := none
    tmpDirName := fun _ => "/tmp/b"
    mkdirErr := fun _ => none
    generate := fun _ _ => .ok "new"
    writeErr := fun _ => some "disk full"
    removeErr := fun _ => none
    mcpTypesContent := "types"
    rspackContent := "cfg" }

/-- C5 counterexample: regeneration for "p" fails at the disk write, yet the
in-memory entry for "p" has been replaced by the new rendering "new" — it is
not "unchanged from its pre-regeneration state" (which was "old") as the
claim asserts; only the on-disk file keeps its previous content. -/
theorem c5_counterexample :
    (regenerateLibForServer envC5 sessC5 wC5 "p").2.2 =
      some "failed to write lib to disk: disk full" ∧
    lookupA sessC5.libs "p" = some "old" ∧
    lookupA (regenerateLibForServer envC5 sessC5 wC5 "p").1.libs "p" = some "new" ∧
    some "new" ≠ some "old" ∧
    (regenerateLibForServer envC5 sessC5 wC5 "p").2.1.fs = wC5.fs :=
  ⟨rfl, rfl, rfl, by decide, rfl⟩

/-- C5 amended: a failed regeneration for provider P leaves the filesystem,
the hub, the bundle directory and every other provider's in-memory entry
unchanged; the in-memory entry for P itself is unchanged when the failure is
the catalog lookup or the rendering, but when the disk write fails it has
already been replaced by the new rendering. -/
theorem c5_amended_regeneration_failure (env : Env) (s : SessionContext) (w : World)
    (serverName : String) (s' : SessionContext) (w' : World) (e : String)
    (h : regenerateLibForServer env s w serverName = (s', w', some e)) :
    w' = w ∧ s'.sessionID = s.sessionID ∧ s'.hub = s.hub ∧ s'.bundleDir = s.bundleDir ∧
    (∀ q, q ≠ serverName → lookupA s'.libs q = lookupA s.libs q) ∧
    (s'.libs = s.libs ∨
      ∃ tools file, s.hub.ServerTools serverName = some tools ∧
        env.generate serverName tools = .ok file ∧
        lookupA s'.libs serverName = some file) := by
  unfold regenerateLibForServer at h
  split at h
  · simp only [Prod.mk.injEq] at h
    obtain ⟨h1, h2, -⟩ := h
    subst h1; subst h2
    exact ⟨rfl, rfl, rfl, rfl, fun q _ => rfl, Or.inl rfl⟩
  next tools hst =>
    split at h
    · simp only [Prod.mk.injEq] at h
      obtain ⟨h1, h2, -⟩ := h
      subst h1; subst h2
      exact ⟨rfl, rfl, rfl, rfl, fun q _ => rfl, Or.inl rfl⟩
    next file hgen =>
      split at h
      · simp only [Prod.mk.injEq] at h
        exact absurd h.2.2 (by simp)
      next hbd =>
        split at h
        next w2 e2 hwrite =>
          have hw2 : w2 = w := by
            unfold writeW at hwrite
            split at hwrite
            · exact (Prod.mk.injEq _ _ _ _ ▸ hwrite).1.symm
            · simp only [Prod.mk.injEq] at hwrite
              exact absurd hwrite.2 (by simp)
          simp only [Prod.mk.injEq] at h
          obtain ⟨h1, h2, -⟩ := h
          subst h1; subst h2
          subst hw2
          refine ⟨rfl, rfl, rfl, rfl,
            fun q hq => lookupA_setAssoc_ne s.libs serverName q file hq, Or.inr ?_⟩
          exact ⟨tools, file, hst, hgen, lookupA_setAssoc_self s.libs serverName file⟩
        next w2 hwrite =>
          simp only [Prod.mk.injEq] at h
          exact absurd h.2.2 (by simp)

/-- The result session of the C5 failure scenario, for the witness. -/
def sessC5' : SessionContext :=
  ⟨"s", ⟨[("p", ⟨[⟨"t", "d"⟩], none⟩)]⟩, [("p", "new")], "/tmp/b"⟩

/-- Witness for C5 amended at the concrete disk-write-failure scenario. -/
theorem c5_amended_regeneration_failure_witness :
    wC5 = wC5 ∧ sessC5'.sessionID = sessC5.sessionID ∧ sessC5'.hub = sessC5.hub ∧
    sessC5'.bundleDir = sessC5.bundleDir ∧
    (∀ q, q ≠ "p" → lookupA sessC5'.libs q = lookupA sessC5.libs q) ∧
    (sessC5'.libs = sessC5.libs ∨
      ∃ tools file, sessC5.hub.ServerTools "p" = some tools ∧
        envC5.generate "p" tools = .ok file ∧
        lookupA sessC5'.libs "p" = some file) :=
  c5_amended_regeneration_failure envC5 sessC5 wC5 "p" sessC5' wC5
    "failed to write lib to disk: disk full" rfl

/-- C6: after a successful regeneration for provider `serverName`, the
in-memory entry and the on-disk file for that provider both equal the
rendering of its new catalog, while every other provider's in-memory entry
and on-disk file are byte-identical to their pre-event state; the hub, the
bundle directory and the directory tree are untouched. -/
theorem c6_regen_success_frame (env : Env) (s : SessionContext) (w : World)
    (serverName : String) (tools : List Tool) (file : String)
    (hst : s.hub.ServerTools serverName = some tools)
    (hgen : env.generate serverName tools = .ok file)
    (hbd : s.bundleDir ≠ "")
    (hw : env.writeErr (s.bundleDir ++ "/lib/" ++ serverName ++ ".ts") = none) :
    ∀ s' w' r, regenerateLibForServer env s w serverName = (s', w', r) →
      r = none ∧
      lookupA s'.libs serverName = some file ∧
      lookupA w'.fs.files (s.bundleDir ++ "/lib/" ++ serverName ++ ".ts") = some file ∧
      (∀ q, q ≠ serverName →
        lookupA s'.libs q = lookupA s.libs q ∧
        lookupA w'.fs.files (s.bundleDir ++ "/lib/" ++ q ++ ".ts") =
          lookupA w.fs.files (s.bundleDir ++ "/lib/" ++ q ++ ".ts")) ∧
      s'.hub = s.hub ∧ s'.bundleDir = s.bundleDir ∧ w'.fs.dirs = w.fs.dirs := by
  intro s' w' r h
  unfold regenerateLibForServer at h
  split at h
  next hnone => rw [hst] at hnone; simp at hnone
  next tools2 hsome =>
  rw [hst] at hsome
  obtain rfl : tools = tools2 := Option.some.inj hsome
  split at h
  next ge hgerr => rw [hgen] at hgerr; simp at hgerr
  next file2 hgok =>
  rw [hgen] at hgok
  obtain rfl : file = file2 := Except.ok.inj hgok
  split at h
  next hbd' => exact absurd hbd' hbd
  next hbd' =>
  split at h
  next w2 e2 hwrite =>
    unfold writeW at hwrite
    split at hwrite
    next e3 hwe => rw [hw] at hwe; simp at hwe
    next hwe => simp only [Prod.mk.injEq] at hwrite; exact absurd hwrite.2 (by simp)
  next w2 hwrite =>
  unfold writeW at hwrite
  split at hwrite
  next e3 hwe => rw [hw] at hwe; simp at hwe
  next hwe =>
  have hww := (Prod.mk.injEq _ _ _ _ ▸ hwrite).1
  subst hww
  simp only [Prod.mk.injEq] at h
  obtain ⟨h1, h2, h3⟩ := h
  subst h1; subst h2; subst h3
  refine ⟨rfl, lookupA_setAssoc_self _ _ _, lookupA_setAssoc_self _ _ _, ?_, rfl, rfl, rfl⟩
  intro q hq
  refine ⟨lookupA_setAssoc_ne _ _ _ _ hq, ?_⟩
  exact lookupA_setAssoc_ne _ _ _ _
    (fun hpq => hq (libPath_inj s.bundleDir q _ hpq))

/-- The result session and world of the C6 success scenario (server "p" of
`sessC5` regenerated to "src" with every write succeeding). -/
def sessC6' : SessionContext :=
  ⟨"s", ⟨[("p", ⟨[⟨"t", "d"⟩], none⟩)]⟩, [("p", "src")], "/tmp/b"⟩

def wC6' : World := ⟨⟨["/tmp/b", "/tmp/b/lib"], [("/tmp/b/lib/p.ts", "src")]⟩, ["p"]⟩

/-- Witness for C6 at a concrete successful regeneration. -/
theorem c6_regen_success_frame_witness :
    (none : Option String) = none ∧
    lookupA sessC6'.libs "p" = some "src" ∧
    lookupA wC6'.fs.files (sessC5.bundleDir ++ "/lib/" ++ "p" ++ ".ts") = some "src" ∧
    (∀ q, q ≠ "p" →
      lookupA sessC6'.libs q = lookupA sessC5.libs q ∧
      lookupA wC6'.fs.files (sessC5.bundleDir ++ "/lib/" ++ q ++ ".ts") =
        lookupA wC5.fs.files (sessC5.bundleDir ++ "/lib/" ++ q ++ ".ts")) ∧
    sessC6'.hub = sessC5.hub ∧ sessC6'.bundleDir = sessC5.bundleDir ∧
    wC6'.fs.dirs = wC5.fs.dirs :=
  c6_regen_success_frame envLeak sessC5 wC5 "p" [⟨"t", "d"⟩] "src" rfl rfl (by decide) rfl
    sessC6' wC6' none rfl

@[simp] theorem underRoot_self (root : String) : underRoot root root = true := by
  simp [underRoot]

theorem root_not_mem_removeTree_dirs (fs : Fs) (root : String) :
    root ∉ (removeTree fs root).dirs := by
  intro hmem
  rw [removeTree] at hmem
  have hfilter := (List.mem_filter.mp hmem).2
  simp at hfilter

theorem lookupA_eraseKey {α : Type} (l : List (String × α)) (k : String) :
    lookupA (eraseKey l k) k = none := by
  induction l with
  | nil => rfl
  | cons p rest ih =>
    unfold eraseKey at ih ⊢
    rw [List.filter_cons]
    by_cases h : p.1 = k
    · simp [h, ih]
    · simp [h, ih]

/-- A session whose single client fails to close, registered under "s". -/
def sessC2 : SessionContext := ⟨"s", ⟨[("a", ⟨[], some "boom"⟩)]⟩, [], "/tmp/b"⟩

def mgrC2 : Manager := ⟨[("s", sessC2)]⟩

def wC2 : World := ⟨⟨["/tmp/b"], []⟩, ["a"]⟩

/-- C2 counterexample: when closing the session's hub reports an error,
`DeleteSession` returns that error having aborted the remaining cleanup —
the session is still registered (a subsequent `GetSession` returns it) and
its workspace directory still exists, contrary to the claim that removal
happens even when the hub close errs. -/
theorem c2_counterexample :
    Manager.DeleteSession envLeak mgrC2 wC2 "s" =
      (mgrC2, ⟨⟨["/tmp/b"], []⟩, []⟩,
       some "failed to close client hub: errors closing clients: failed to close client a: boom") ∧
    (Manager.DeleteSession envLeak mgrC2 wC2 "s").1.GetSession "s" = some sessC2 ∧
    "/tmp/b" ∈ (Manager.DeleteSession envLeak mgrC2 wC2 "s").2.1.fs.dirs :=
  ⟨rfl, rfl, by decide⟩

/-- C2 amended: for a registered session, `DeleteSession` removes it from
the registry and removes its workspace directory only when its hub closes
without error; when the hub close reports an error, `DeleteSession` returns
that error wrapped, with the session still registered and the filesystem
untouched (every client's close was still attempted). -/
theorem c2_amended_delete_session (env : Env) (m : Manager) (w : World)
    (sessionID : String) (s : SessionContext)
    (hlk : lookupA m.sessions sessionID = some s) :
    ∀ m' w' r, Manager.DeleteSession env m w sessionID = (m', w', r) →
      (hubCloseErrs s.hub.clients = [] →
        r = none ∧ m'.GetSession sessionID = none ∧
        (s.bundleDir ≠ "" → env.removeErr s.bundleDir = none →
          s.bundleDir ∉ w'.fs.dirs)) ∧
      (hubCloseErrs s.hub.clients ≠ [] →
        m' = m ∧ w'.fs = w.fs ∧
        (∃ e, r = some ("failed to close client hub: " ++ e))) := by
  intro m' w' r h
  unfold Manager.DeleteSession at h
  split at h
  next hnone => rw [hlk] at hnone; simp at hnone
  next s2 hsome =>
  rw [hlk] at hsome
  obtain rfl : s = s2 := Option.some.inj hsome
  split at h
  next w2 e2 hclose =>
    unfold McpClientHub.Close hubCloseErrOpt at hclose
    split at hclose
    next hce =>
      simp only [Prod.mk.injEq] at hclose
      exact absurd hclose.2 (by simp)
    next e3 rest hce =>
      simp only [Prod.mk.injEq] at hclose
      obtain ⟨hw2, he2⟩ := hclose
      simp only [Prod.mk.injEq] at h
      obtain ⟨h1, h2, h3⟩ := h
      subst h1; subst h2; subst h3
      constructor
      · intro hno
        rw [hce] at hno
        simp at hno
      · intro _
        refine ⟨rfl, ?_, ?_⟩
        · rw [← hw2]
        · exact ⟨e2, rfl⟩
  next w2 hclose =>
    unfold McpClientHub.Close hubCloseErrOpt at hclose
    split at hclose
    next hce =>
      simp only [Prod.mk.injEq] at hclose
      obtain ⟨hw2, -⟩ := hclose
      by_cases hbd : s.bundleDir = ""
      · rw [if_pos hbd] at h
        simp only [Prod.mk.injEq] at h
        obtain ⟨h1, h2, h3⟩ := h
        subst h1; subst h2; subst h3
        refine ⟨fun _ => ⟨rfl, lookupA_eraseKey m.sessions sessionID, fun hbd' _ => absurd hbd hbd'⟩,
          fun hne => absurd hce hne⟩
      · rw [if_neg hbd] at h
        simp only [Prod.mk.injEq] at h
        obtain ⟨h1, h2, h3⟩ := h
        subst h1; subst h2; subst h3
        refine ⟨fun _ => ⟨rfl, lookupA_eraseKey m.sessions sessionID, fun _ hrm => ?_⟩,
          fun hne => absurd hce hne⟩
        simp only [removeAllW, hrm]
        subst hw2
        exact root_not_mem_removeTree_dirs _ _
    next e3 rest hce =>
      simp only [Prod.mk.injEq] at hclose
      exact absurd hclose.2 (by simp)

/-- A registered session whose hub closes cleanly, for the C2 witness. -/
def sessC2ok : SessionContext := ⟨"s", ⟨[("a", ⟨[], none⟩)]⟩, [], "/tmp/b"⟩

def mgrC2ok : Manager := ⟨[("s", sessC2ok)]⟩

/-- Witness for C2 amended at a concrete deletion whose hub closes cleanly:
the session is removed and its workspace directory disappears. -/
theorem c2_amended_delete_session_witness :
    (hubCloseErrs sessC2ok.hub.clients = [] →
      (none : Option String) = none ∧
      (⟨[]⟩ : Manager).GetSession "s" = none ∧
      (sessC2ok.bundleDir ≠ "" → envLeak.removeErr sessC2ok.bundleDir = none →
        sessC2ok.bundleDir ∉ (⟨⟨[], []⟩, []⟩ : World).fs.dirs)) ∧
    (hubCloseErrs sessC2ok.hub.clients ≠ [] →
      (⟨[]⟩ : Manager) = mgrC2ok ∧ (⟨⟨[], []⟩, []⟩ : World).fs = wC2.fs ∧
      (∃ e, (none : Option String) = some ("failed to close client hub: " ++ e))) :=
  c2_amended_delete_session envLeak mgrC2ok wC2 "s" sessC2ok rfl ⟨[]⟩ ⟨⟨[], []⟩, []⟩ none rfl

/-- The error entry (`fmt.Errorf` with session id and cause) that `CloseAll`
collects for a session whose hub close failed. -/
def closeAllErrEntry (p : String × SessionContext) : String :=
  "session " ++ p.1 ++ ": " ++ ("errors closing clients: " ++
    String.intercalate "; " (hubCloseErrs p.2.hub.clients))

theorem mem_removeAllW_dirs (env : Env) (w : World) (root d : String)
    (h : d ∈ (removeAllW env w root).fs.dirs) : d ∈ w.fs.dirs := by
  unfold removeAllW at h
  split at h
  · exact h
  · simp only [removeTree] at h
    exact (List.mem_filter.mp h).1

theorem closeAllLoop_dirs_subset (env : Env) (l : List (String × SessionContext)) :
    ∀ w errs d, d ∈ (closeAllLoop env l w errs).1.fs.dirs → d ∈ w.fs.dirs := by
  induction l with
  | nil => intro w errs d h; simpa [closeAllLoop] using h
  | cons p rest ih =>
    intro w errs d h
    simp only [closeAllLoop] at h
    have h2 := ih _ _ _ h
    by_cases hbd : p.2.bundleDir = ""
    · rw [if_pos hbd] at h2
      exact h2
    · rw [if_neg hbd] at h2
      exact mem_removeAllW_dirs env ((p.2.hub.Close w).1) _ _ h2

theorem closeAllLoop_removes_dir (env : Env) (l : List (String × SessionContext)) :
    ∀ w errs p, p ∈ l → p.2.bundleDir ≠ "" → env.removeErr p.2.bundleDir = none →
      p.2.bundleDir ∉ (closeAllLoop env l w errs).1.fs.dirs := by
  induction l with
  | nil => intro w errs p hp; simp at hp
  | cons q rest ih =>
    intro w errs p hp hbd hrm hmem
    simp only [closeAllLoop] at hmem
    rcases List.mem_cons.mp hp with hq | hq
    · subst hq
      rw [if_neg hbd] at hmem
      have h2 := closeAllLoop_dirs_subset env rest _ _ _ hmem
      simp only [removeAllW, hrm] at h2
      exact root_not_mem_removeTree_dirs _ _ h2
    · exact ih _ _ p hq hbd hrm hmem

theorem closeAllLoop_errs (env : Env) (l : List (String × SessionContext)) :
    ∀ w errs0, (closeAllLoop env l w errs0).2 =
      errs0 ++ (l.filter (fun p => ! (hubCloseErrs p.2.hub.clients).isEmpty)).map
        closeAllErrEntry := by
  induction l with
  | nil => intro w errs0; simp [closeAllLoop]
  | cons p rest ih =>
    intro w errs0
    simp only [closeAllLoop]
    cases hce : hubCloseErrs p.2.hub.clients with
    | nil =>
      have hopt : (p.2.hub.Close w).2 = none := by
        simp [McpClientHub.Close, hubCloseErrOpt, hce]
      rw [hopt, ih]
      simp [List.filter_cons, hce]
    | cons e rest2 =>
      have hopt : (p.2.hub.Close w).2 =
          some ("errors closing clients: " ++ String.intercalate "; " (e :: rest2)) := by
        simp [McpClientHub.Close, hubCloseErrOpt, hce]
      rw [hopt, ih]
      simp [List.filter_cons, hce, closeAllErrEntry]

/-- C8 amended: `CloseAll` always leaves the registry with zero sessions and
attempts the close+remove sequence for every session without aborting; the
returned error list aggregates exactly the hub-close failures, one entry
naming each session whose hub close failed — workspace-removal failures are
only logged and never appear in it. -/
theorem c8_amended_close_all (env : Env) (m : Manager) (w : World) :
    ∀ m' w' errs, Manager.CloseAll env m w = (m', w', errs) →
      m'.sessions = [] ∧
      errs = (m.sessions.filter
        (fun p => ! (hubCloseErrs p.2.hub.clients).isEmpty)).map closeAllErrEntry ∧
      ∀ p, p ∈ m.sessions → p.2.bundleDir ≠ "" → env.removeErr p.2.bundleDir = none →
        p.2.bundleDir ∉ w'.fs.dirs := by
  intro m' w' errs h
  unfold Manager.CloseAll at h
  simp only [Prod.mk.injEq] at h
  obtain ⟨h1, h2, h3⟩ := h
  subst h1; subst h2; subst h3
  refine ⟨rfl, ?_, ?_⟩
  · rw [closeAllLoop_errs]
    simp
  · intro p hp hbd hrm
    exact closeAllLoop_removes_dir env m.sessions w [] p hp hbd hrm

/-- Every `os.RemoveAll` fails in this environment. -/
def envC8 : Env := { envLeak with removeErr := fun _ => some "permission denied" }

/-- C8 counterexample: session "s" closes its hub cleanly but its workspace
removal fails; `CloseAll` nevertheless returns an EMPTY error list — the
failing session is not named in any reported error (the removal error is
only logged), and its directory remains. This refutes "aggregates all
sub-errors into a single reported error that names every failing session". -/
theorem c8_counterexample :
    Manager.CloseAll envC8 mgrC2ok wC2 = (⟨[]⟩, ⟨⟨["/tmp/b"], []⟩, []⟩, []) ∧
    envC8.removeErr sessC2ok.bundleDir = some "permission denied" ∧
    "/tmp/b" ∈ (Manager.CloseAll envC8 mgrC2ok wC2).2.1.fs.dirs :=
  ⟨rfl, rfl, by decide⟩

/-- Two sessions: "s1" whose hub close fails, "s2" whose hub closes fine. -/
def mgrC8 : Manager := ⟨[("s1", sessC2), ("s2", sessC2ok)]⟩

def wC8 : World := ⟨⟨["/tmp/b"], []⟩, ["a", "a"]⟩

/-- Witness for C8 amended at a concrete registry: the error list names
exactly the session whose hub close failed, and the cleanly-removable
workspace directories are gone. -/
theorem c8_amended_close_all_witness :
    (⟨[]⟩ : Manager).sessions = [] ∧
    ["session " ++ "s1" ++ ": " ++ ("errors closing clients: " ++
      String.intercalate "; " (hubCloseErrs sessC2.hub.clients))] =
      (mgrC8.sessions.filter
        (fun p => ! (hubCloseErrs p.2.hub.clients).isEmpty)).map closeAllErrEntry ∧
    (∀ p, p ∈ mgrC8.sessions → p.2.bundleDir ≠ "" → envLeak.removeErr p.2.bundleDir = none →
      p.2.bundleDir ∉ (⟨⟨[], []⟩, []⟩ : World).fs.dirs) :=
  c8_amended_close_all envLeak mgrC8 wC8 ⟨[]⟩ ⟨⟨[], []⟩, []⟩
    ["session " ++ "s1" ++ ": " ++ ("errors closing clients: " ++
      String.intercalate "; " (hubCloseErrs sessC2.hub.clients))] rfl

/-- Holds when `path` lies strictly beneath directory `root`. -/
def strictlyUnder (root path : String) : Bool :=
  List.isPrefixOf (root ++ "/").data path.data

theorem isPrefixOf_append_self {α : Type} [BEq α] [LawfulBEq α] (l t : List α) :
    List.isPrefixOf l (l ++ t) = true := by
  induction l with
  | nil => simp
  | cons a as ih =>
    show List.isPrefixOf (a :: as) (a :: (as ++ t)) = true
    simp only [List.isPrefixOf, Bool.and_eq_true]
    exact ⟨by simp, ih⟩

theorem isPrefixOf_append_extend {α : Type} [BEq α] [LawfulBEq α] (l₁ l₂ t : List α)
    (h : List.isPrefixOf l₁ l₂ = true) : List.isPrefixOf l₁ (l₂ ++ t) = true := by
  induction l₁ generalizing l₂ with
  | nil => simp
  | cons a as ih =>
    cases l₂ with
    | nil =>
      simp only [List.isPrefixOf] at h
      exact absurd h (by simp)
    | cons b bs =>
      simp only [List.cons_append, List.isPrefixOf, Bool.and_eq_true] at h ⊢
      exact ⟨h.1, ih bs h.2⟩

theorem strictlyUnder_of_slash (root t : String) (c : List Char)
    (ht : t.data = ("/" : String).data ++ c) :
    strictlyUnder root (root ++ t) = true := by
  unfold strictlyUnder
  rw [String.data_append, String.data_append, ht, ← List.append_assoc]
  exact isPrefixOf_append_self _ _

theorem strictlyUnder_extend (root base t : String)
    (h : strictlyUnder root base = true) :
    strictlyUnder root (base ++ t) = true := by
  unfold strictlyUnder at h ⊢
  rw [String.data_append]
  exact isPrefixOf_append_extend _ _ _ h

theorem underRoot_of_strict (root path : String) (h : strictlyUnder root path = true) :
    underRoot root path = true := by
  unfold underRoot
  unfold strictlyUnder at h
  rw [h]
  simp

/-- Holds when `fs` equals `fs0` plus entries at or beneath `root` only. -/
def extendsUnder (root : String) (fs0 fs : Fs) : Prop :=
  fs.dirs.filter (fun d => ! underRoot root d) = fs0.dirs ∧
  fs.files.filter (fun f => ! underRoot root f.1) = fs0.files

theorem extendsUnder_of_fresh (root : String) (fs : Fs)
    (hd : ∀ d, d ∈ fs.dirs → underRoot root d = false)
    (hf : ∀ f, f ∈ fs.files → underRoot root f.1 = false) :
    extendsUnder root fs fs := by
  constructor
  · rw [List.filter_eq_self]
    intro a ha
    simp [hd a ha]
  · rw [List.filter_eq_self]
    intro a ha
    simp [hf a ha]

theorem extendsUnder_mkdir (root path : String) (fs0 fs : Fs)
    (hpath : underRoot root path = true) (h : extendsUnder root fs0 fs) :
    extendsUnder root fs0 ⟨fs.dirs ++ [path], fs.files⟩ := by
  obtain ⟨h1, h2⟩ := h
  refine ⟨?_, h2⟩
  rw [List.filter_append]
  simp [hpath, h1]

theorem filter_setAssoc_under (root path v : String) (files : List (String × String))
    (hpath : underRoot root path = true) :
    (setAssoc files path v).filter (fun f => ! underRoot root f.1) =
      files.filter (fun f => ! underRoot root f.1) := by
  induction files with
  | nil => simp [setAssoc, List.filter_cons, hpath]
  | cons p rest ih =>
    by_cases h : p.1 = path
    · simp only [setAssoc, if_pos h]
      rw [List.filter_cons, List.filter_cons]
      simp [hpath, h]
    · simp only [setAssoc, if_neg h]
      rw [List.filter_cons, List.filter_cons]
      by_cases hu : underRoot root p.1 = true <;> simp [hu, ih]

theorem extendsUnder_write (root path v : String) (fs0 fs : Fs)
    (hpath : underRoot root path = true) (h : extendsUnder root fs0 fs) :
    extendsUnder root fs0 ⟨fs.dirs, setAssoc fs.files path v⟩ :=
  ⟨h.1, by rw [filter_setAssoc_under root path v fs.files hpath]; exact h.2⟩

theorem removeTree_of_extendsUnder (root : String) (fs0 fs : Fs)
    (h : extendsUnder root fs0 fs) : removeTree fs root = fs0 := by
  obtain ⟨h1, h2⟩ := h
  cases fs0 with
  | mk d0 f0 => simp only [removeTree]; rw [h1, h2]

theorem removeAllW_restores (env : Env) (root : String) (fs0 : Fs) (w : World)
    (hrm : env.removeErr root = none) (h : extendsUnder root fs0 w.fs) :
    (removeAllW env w root).fs = fs0 := by
  simp only [removeAllW, hrm]
  exact removeTree_of_extendsUnder root fs0 w.fs h

theorem lookupA_setAssoc_isSome {α : Type} (l : List (String × α)) (q k : String) (v : α)
    (h : (lookupA l k).isSome = true) : (lookupA (setAssoc l q v) k).isSome = true := by
  by_cases hkq : k = q
  · subst hkq
    rw [lookupA_setAssoc_self]
    rfl
  · rw [lookupA_setAssoc_ne l q k v hkq]
    exact h

/-- In a write-failure branch `writeW` leaves the world unchanged. -/
theorem writeW_fail_world (env : Env) (w : World) (path content : String) (w2 : World)
    (e : String) (h : writeW env w path content = (w2, some e)) : w2 = w := by
  unfold writeW at h
  split at h
  · exact (Prod.mk.injEq _ _ _ _ ▸ h).1.symm
  · simp only [Prod.mk.injEq] at h
    exact absurd h.2 (by simp)

/-- In a write-success branch `writeW` replaces exactly that file. -/
theorem writeW_ok_world (env : Env) (w : World) (path content : String) (w2 : World)
    (h : writeW env w path content = (w2, none)) :
    w2 = { w with fs := { w.fs with files := setAssoc w.fs.files path content } } := by
  unfold writeW at h
  split at h
  · simp only [Prod.mk.injEq] at h
    exact absurd h.2 (by simp)
  · exact (Prod.mk.injEq _ _ _ _ ▸ h).1.symm

theorem genLoop_error_restores (env : Env) (root libDir : String)
    (hrm : env.removeErr root = none) (hlib : strictlyUnder root libDir = true)
    (l : List (String × List Tool)) :
    ∀ libs w fs0, extendsUnder root fs0 w.fs →
      ∀ w' e, genLoop env root libDir l libs w = (w', .error e) → w'.fs = fs0 := by
  induction l with
  | nil =>
    intro libs w fs0 hext w' e h
    simp only [genLoop, Prod.mk.injEq] at h
    exact absurd h.2 (by simp)
  | cons p rest ih =>
    intro libs w fs0 hext w' e h
    simp only [genLoop] at h
    split at h
    next ge hgen =>
      simp only [Prod.mk.injEq] at h
      obtain ⟨h1, -⟩ := h
      subst h1
      exact removeAllW_restores env root fs0 w hrm hext
    next file hgen =>
      split at h
      next w2 e2 hwr =>
        have hw2 := writeW_fail_world env w _ file w2 e2 hwr
        rw [hw2] at h
        simp only [Prod.mk.injEq] at h
        obtain ⟨h1, -⟩ := h
        subst h1
        exact removeAllW_restores env root fs0 w hrm hext
      next w2 hwr =>
        have hw2 := writeW_ok_world env w _ file w2 hwr
        subst hw2
        refine ih (setAssoc libs p.1 file) _ fs0 ?_ w' e h
        exact extendsUnder_write root _ file fs0 w.fs
          (underRoot_of_strict root _
            (strictlyUnder_extend root _ ".ts"
              (strictlyUnder_extend root _ p.1
                (strictlyUnder_extend root libDir "/" hlib)))) hext

theorem genLoop_ok_spec (env : Env) (root libDir : String)
    (hlib : strictlyUnder root libDir = true) (l : List (String × List Tool)) :
    ∀ libs w w' libs2, genLoop env root libDir l libs w = (w', .ok libs2) →
      w'.fs.dirs = w.fs.dirs ∧ w'.openConns = w.openConns ∧
      (∀ fs0, extendsUnder root fs0 w.fs → extendsUnder root fs0 w'.fs) ∧
      (∀ p, p ∈ l → (lookupA libs2 p.1).isSome = true) ∧
      (∀ k, (lookupA libs k).isSome = true → (lookupA libs2 k).isSome = true) := by
  induction l with
  | nil =>
    intro libs w w' libs2 h
    simp only [genLoop, Prod.mk.injEq] at h
    obtain ⟨h1, h2⟩ := h
    have h2' : libs = libs2 := by simpa using h2
    subst h1; subst h2'
    exact ⟨rfl, rfl, fun fs0 hx => hx, fun p hp => absurd hp (List.not_mem_nil p),
      fun k hk => hk⟩
  | cons p rest ih =>
    intro libs w w' libs2 h
    simp only [genLoop] at h
    split at h
    next ge hgen =>
      simp only [Prod.mk.injEq] at h
      exact absurd h.2 (by simp)
    next file hgen =>
      split at h
      next w2 e2 hwr =>
        simp only [Prod.mk.injEq] at h
        exact absurd h.2 (by simp)
      next w2 hwr =>
        have hw2 := writeW_ok_world env w _ file w2 hwr
        subst hw2
        obtain ⟨hd, hc, hx, hkeys, hmono⟩ := ih (setAssoc libs p.1 file) _ w' libs2 h
        refine ⟨hd, hc, ?_, ?_, ?_⟩
        · intro fs0 h0
          refine hx fs0 ?_
          exact extendsUnder_write root _ file fs0 w.fs
            (underRoot_of_strict root _
              (strictlyUnder_extend root _ ".ts"
                (strictlyUnder_extend root _ p.1
                  (strictlyUnder_extend root libDir "/" hlib)))) h0
        · intro q hq
          rcases List.mem_cons.mp hq with hq | hq
          · subst hq
            refine hmono q.1 ?_
            rw [lookupA_setAssoc_self]
            rfl
          · exact hkeys q hq
        · intro k hk
          exact hmono k (lookupA_setAssoc_isSome libs p.1 k file hk)

/-- C7: if any step of initial workspace construction fails (creating the
lib sub-directory, rendering a provider artifact, writing a provider
artifact, writing `mcp-types.ts`, or writing the rspack config), the entire
bundle directory is removed before the error is returned: the filesystem is
exactly its pre-call state and the workspace root is not allocated.
Hypotheses: the fresh temp path collides with no existing entry, and the
`os.RemoveAll` of that root succeeds (the code discards its error). -/
theorem c7_init_failure_no_partial_workspace (env : Env) (sessionID : String)
    (hub : McpClientHub) (w : World)
    (hfd : ∀ d, d ∈ w.fs.dirs → underRoot (env.tmpDirName sessionID) d = false)
    (hff : ∀ f, f ∈ w.fs.files → underRoot (env.tmpDirName sessionID) f.1 = false)
    (hrm : env.removeErr (env.tmpDirName sessionID) = none) :
    ∀ w' e, initializeSessionBundleDir env sessionID hub w = (w', .error e) →
      w'.fs = w.fs ∧ env.tmpDirName sessionID ∉ w'.fs.dirs := by
  intro w' e h
  have hroot : env.tmpDirName sessionID ∉ w.fs.dirs := by
    intro hmem
    have hcontra := hfd _ hmem
    rw [underRoot_self] at hcontra
    simp at hcontra
  suffices hfs : w'.fs = w.fs by
    refine ⟨hfs, ?_⟩
    rw [hfs]
    exact hroot
  have hext0 : extendsUnder (env.tmpDirName sessionID) w.fs w.fs :=
    extendsUnder_of_fresh _ w.fs hfd hff
  have hextRoot : extendsUnder (env.tmpDirName sessionID) w.fs
      (mkdirW w (env.tmpDirName sessionID)).fs :=
    extendsUnder_mkdir _ _ w.fs w.fs (underRoot_self _) hext0
  have hlib : strictlyUnder (env.tmpDirName sessionID)
      (env.tmpDirName sessionID ++ "/lib") = true :=
    strictlyUnder_of_slash _ "/lib" ("lib" : String).data (by decide)
  have hextLib : extendsUnder (env.tmpDirName sessionID) w.fs
      (mkdirW (mkdirW w (env.tmpDirName sessionID))
        (env.tmpDirName sessionID ++ "/lib")).fs :=
    extendsUnder_mkdir _ _ w.fs _ (underRoot_of_strict _ _ hlib) hextRoot
  simp only [initializeSessionBundleDir] at h
  split at h
  next e0 htmp =>
    simp only [Prod.mk.injEq] at h
    obtain ⟨h1, -⟩ := h
    rw [← h1]
  next htmp =>
  split at h
  next e0 hmk =>
    simp only [Prod.mk.injEq] at h
    obtain ⟨h1, -⟩ := h
    rw [← h1]
    exact removeAllW_restores env _ w.fs _ hrm hextRoot
  next hmk =>
  split at h
  next w2 e2 hgl =>
    simp only [Prod.mk.injEq] at h
    obtain ⟨h1, -⟩ := h
    rw [← h1]
    exact genLoop_error_restores env _ _ hrm hlib hub.Tools [] _ w.fs hextLib w2 e2 hgl
  next w2 libs2 hgl =>
  have hext2 : extendsUnder (env.tmpDirName sessionID) w.fs w2.fs :=
    (genLoop_ok_spec env _ _ hlib hub.Tools [] _ w2 libs2 hgl).2.2.1 w.fs hextLib
  split at h
  next w3 e3 hwr =>
    have hw3 := writeW_fail_world env w2 _ env.mcpTypesContent w3 e3 hwr
    simp only [Prod.mk.injEq] at h
    obtain ⟨h1, -⟩ := h
    rw [← h1, hw3]
    exact removeAllW_restores env _ w.fs w2 hrm hext2
  next w3 hwr =>
  have hw3 := writeW_ok_world env w2 _ env.mcpTypesContent w3 hwr
  have hext3 : extendsUnder (env.tmpDirName sessionID) w.fs w3.fs := by
    rw [hw3]
    exact extendsUnder_write _ _ env.mcpTypesContent w.fs w2.fs
      (underRoot_of_strict _ _ (strictlyUnder_extend _ _ "/mcp-types.ts" hlib)) hext2
  split at h
  next w4 e4 hwr2 =>
    have hw4 := writeW_fail_world env w3 _ env.rspackContent w4 e4 hwr2
    simp only [Prod.mk.injEq] at h
    obtain ⟨h1, -⟩ := h
    rw [← h1, hw4]
    exact removeAllW_restores env _ w.fs w3 hrm hext3
  next w4 hwr2 =>
    simp only [Prod.mk.injEq] at h
    exact absurd h.2 (by simp)

/-- Every `os.Mkdir` fails in this environment. -/
def envC7 : Env := { envLeak with mkdirErr := fun _ => some "EACCES" }

/-- Witness for C7 at a concrete failing construction (lib-dir creation
fails on an empty filesystem): the filesystem is restored and no workspace
root remains. -/
theorem c7_init_failure_no_partial_workspace_witness :
    (⟨⟨[], []⟩, []⟩ : World).fs = (⟨⟨[], []⟩, []⟩ : World).fs ∧
    envC7.tmpDirName "s" ∉ (⟨⟨[], []⟩, []⟩ : World).fs.dirs :=
  c7_init_failure_no_partial_workspace envC7 "s" ⟨[]⟩ ⟨⟨[], []⟩, []⟩
    (fun d hd => absurd hd (List.not_mem_nil d))
    (fun f hf => absurd hf (List.not_mem_nil f)) rfl
    ⟨⟨[], []⟩, []⟩ "failed to create lib dir: EACCES" rfl

/-- On success, `initializeSessionBundleDir` returns the fresh root as the
session's bundle directory, that root is allocated, connections are
untouched, and the returned `Libs` map has an entry for every connected
provider. -/
theorem initializeSessionBundleDir_ok_spec (env : Env) (sessionID : String)
    (hub : McpClientHub) (w : World) :
    ∀ w' libs bundleDir,
      initializeSessionBundleDir env sessionID hub w = (w', .ok (libs, bundleDir)) →
      bundleDir = env.tmpDirName sessionID ∧ bundleDir ∈ w'.fs.dirs ∧
      w'.openConns = w.openConns ∧
      ∀ p, p ∈ hub.clients → (lookupA libs p.1).isSome = true := by
  intro w' libs bundleDir h
  have hlib : strictlyUnder (env.tmpDirName sessionID)
      (env.tmpDirName sessionID ++ "/lib") = true :=
    strictlyUnder_of_slash _ "/lib" ("lib" : String).data (by decide)
  simp only [initializeSessionBundleDir] at h
  split at h
  next e0 htmp => simp at h
  next htmp =>
  split at h
  next e0 hmk => simp at h
  next hmk =>
  split at h
  next w2 e2 hgl => simp at h
  next w2 libs2 hgl =>
  obtain ⟨hdirs, hconns, -, hkeys, -⟩ :=
    genLoop_ok_spec env _ _ hlib hub.Tools [] _ w2 libs2 hgl
  split at h
  next w3 e3 hwr => simp at h
  next w3 hwr =>
  have hw3 := writeW_ok_world env w2 _ env.mcpTypesContent w3 hwr
  split at h
  next w4 e4 hwr2 => simp at h
  next w4 hwr2 =>
  have hw4 := writeW_ok_world env w3 _ env.rspackContent w4 hwr2
  simp only [Prod.mk.injEq, Except.ok.injEq] at h
  obtain ⟨h1, h2, h3⟩ := h
  refine ⟨h3.symm, ?_, ?_, ?_⟩
  · rw [← h1, hw4, hw3]
    show bundleDir ∈ w2.fs.dirs
    rw [hdirs, ← h3]
    simp [mkdirW]
  · rw [← h1, hw4, hw3]
    show w2.openConns = w.openConns
    rw [hconns]
    rfl
  · intro p hp
    rw [← h2]
    exact hkeys (p.1, p.2.tools) (List.mem_map_of_mem _ hp)

theorem connectLoop_ok_names (env : Env) (names : List String) :
    ∀ acc w acc' w', connectLoop env names acc w = (acc', w', none) →
      acc'.map Prod.fst = acc.map Prod.fst ++ names := by
  induction names with
  | nil =>
    intro acc w acc' w' h
    simp only [connectLoop, Prod.mk.injEq] at h
    obtain ⟨h1, -⟩ := h
    rw [← h1]
    simp
  | cons n rest ih =>
    intro acc w acc' w' h
    simp only [connectLoop] at h
    split at h
    next e hconn =>
      simp only [Prod.mk.injEq] at h
      exact absurd h.2.2 (by simp)
    next c hconn =>
      rw [ih (acc ++ [(n, c)]) _ acc' w' h]
      simp

/-- A construction failure leaves the registry unchanged: every error branch
of `GetOrCreateSession` returns the manager it was given. -/
theorem getOrCreateSession_error_manager (env : Env) (m : Manager) (w : World)
    (sessionID : String) :
    ∀ m' w' e, Manager.GetOrCreateSession env m w sessionID = (m', w', .error e) →
      m' = m := by
  intro m' w' e h
  unfold Manager.GetOrCreateSession at h
  split at h
  next s hs => simp at h
  next hs =>
  split at h
  next hub2 w2 e2 hconn =>
    simp only [Prod.mk.injEq] at h
    exact h.1.symm
  next hub2 w2 hconn =>
  split at h
  next w3 e3 hinit =>
    split at h
    simp only [Prod.mk.injEq] at h
    exact h.1.symm
  next w3 libs3 bd3 hinit =>
    simp at h

/-- A successful first-time construction publishes exactly one new session,
whose hub is connected to every configured server and whose workspace entry
exists for every connected provider. -/
theorem getOrCreateSession_ok_spec (env : Env) (m : Manager) (w : World)
    (sessionID : String) (habs : lookupA m.sessions sessionID = none) :
    ∀ m' w' s, Manager.GetOrCreateSession env m w sessionID = (m', w', .ok s) →
      m'.sessions = setAssoc m.sessions sessionID s ∧
      s.sessionID = sessionID ∧
      s.hub.clients.map Prod.fst = env.servers ∧
      s.bundleDir = env.tmpDirName sessionID ∧ s.bundleDir ∈ w'.fs.dirs ∧
      ∀ p, p ∈ s.hub.clients → (lookupA s.libs p.1).isSome = true := by
  intro m' w' s h
  unfold Manager.GetOrCreateSession at h
  split at h
  next s0 hs => rw [habs] at hs; simp at hs
  next hs =>
  split at h
  next hub2 w2 e2 hconn => simp at h
  next hub2 w2 hconn =>
  have hnames : hub2.clients.map Prod.fst = env.servers := by
    unfold McpClientHub.Connect at hconn
    split at hconn
    next cl wl el heq =>
      simp only [Prod.mk.injEq] at hconn
      obtain ⟨hh, -, herr⟩ := hconn
      rw [herr] at heq
      rw [← hh]
      show cl.map Prod.fst = env.servers
      have hnm := connectLoop_ok_names env env.servers [] w cl wl heq
      simpa using hnm
  split at h
  next w3 e3 hinit =>
    split at h
    simp at h
  next w3 libs3 bd3 hinit =>
  obtain ⟨hbd, hmem, -, hkeys⟩ :=
    initializeSessionBundleDir_ok_spec env sessionID hub2 w2 w3 libs3 bd3 hinit
  simp only [Prod.mk.injEq, Except.ok.injEq] at h
  obtain ⟨h1, h2, h3⟩ := h
  subst h3
  subst h2
  exact ⟨by rw [← h1], rfl, hnames, hbd, hmem, hkeys⟩

/-- C3: when the session id is absent, any construction failure leaves the
registry map unchanged and a subsequent lookup returns absent; on success
exactly one new entry is published, and that session is fully initialized —
its hub is connected to every configured server and its workspace is fully
built (root allocated, one artifact entry per connected provider). -/
theorem c3_publish_only_fully_initialized (env : Env) (m : Manager) (w : World)
    (sessionID : String) (habs : lookupA m.sessions sessionID = none) :
    ∀ m' w' r, Manager.GetOrCreateSession env m w sessionID = (m', w', r) →
      (∀ e, r = .error e → m' = m ∧ m'.GetSession sessionID = none) ∧
      (∀ s, r = .ok s →
        m'.sessions = setAssoc m.sessions sessionID s ∧
        m'.GetSession sessionID = some s ∧
        s.sessionID = sessionID ∧
        s.hub.clients.map Prod.fst = env.servers ∧
        s.bundleDir = env.tmpDirName sessionID ∧ s.bundleDir ∈ w'.fs.dirs ∧
        ∀ p, p ∈ s.hub.clients → (lookupA s.libs p.1).isSome = true) := by
  intro m' w' r h
  constructor
  · intro e hr
    subst hr
    have hm := getOrCreateSession_error_manager env m w sessionID m' w' e h
    subst hm
    exact ⟨rfl, habs⟩
  · intro s hr
    subst hr
    obtain ⟨h1, h2, h3, h4, h5, h6⟩ :=
      getOrCreateSession_ok_spec env m w sessionID habs m' w' s h
    refine ⟨h1, ?_, h2, h3, h4, h5, h6⟩
    show lookupA m'.sessions sessionID = some s
    rw [h1]
    exact lookupA_setAssoc_self _ _ _

/-- One configured server "a" that connects; all filesystem steps succeed. -/
def envOk : Env := { envLeak with servers := ["a"] }

/-- The session `GetOrCreateSession envOk` builds for id "s". -/
def sessOk : SessionContext :=
  ⟨"s", ⟨[("a", ⟨[], none⟩)]⟩, [("a", "src")], "/tmp/codebraid-s"⟩

def mgrOk : Manager := ⟨[("s", sessOk)]⟩

def wOk : World :=
  ⟨⟨["/tmp/codebraid-s", "/tmp/codebraid-s/lib"],
    [("/tmp/codebraid-s/lib/a.ts", "src"), ("/tmp/codebraid-s/lib/mcp-types.ts", "types"),
     ("/tmp/codebraid-s/rspack.config.ts", "cfg")]⟩, ["a"]⟩

/-- Witness for C3 at a concrete successful construction. -/
theorem c3_publish_only_fully_initialized_witness :
    mgrOk.GetSession "s" = some sessOk ∧
    sessOk.hub.clients.map Prod.fst = envOk.servers ∧
    sessOk.bundleDir ∈ wOk.fs.dirs := by
  have hc3 := c3_publish_only_fully_initialized envOk ⟨[]⟩ ⟨⟨[], []⟩, []⟩ "s" rfl
    mgrOk wOk (.ok sessOk) rfl
  exact ⟨(hc3.2 sessOk rfl).2.1, (hc3.2 sessOk rfl).2.2.2.1,
    (hc3.2 sessOk rfl).2.2.2.2.2.1⟩

/-- Runs n serialized callers of `GetOrCreateSession` for the same session id,
serialized in the order the registry's lock admits them (the whole
construction runs under the write lock, so executions cannot overlap).
`envs k` supplies the collaborator outcomes seen by the k-th construction
attempt. A caller whose fast-path lookup hits returns that session (manager
lines 35-41); otherwise it runs the full write-locked path. Returns the
final registry and world, the number of construction attempts executed, and
each caller's result in order. -/
def runSameID (envs : Nat → Env) (sessionID : String) :
    Nat → Manager → World → Nat → Manager × World × Nat × List (Except String SessionContext)
  | 0, m, w, k => (m, w, k, [])
  | n + 1, m, w, k =>
    match lookupA m.sessions sessionID with
    | some s =>
      ((runSameID envs sessionID n m w k).1,
       (runSameID envs sessionID n m w k).2.1,
       (runSameID envs sessionID n m w k).2.2.1,
       .ok s :: (runSameID envs sessionID n m w k).2.2.2)
    | none =>
      ((runSameID envs sessionID n
          (Manager.GetOrCreateSession (envs k) m w sessionID).1
          (Manager.GetOrCreateSession (envs k) m w sessionID).2.1 (k + 1)).1,
       (runSameID envs sessionID n
          (Manager.GetOrCreateSession (envs k) m w sessionID).1
          (Manager.GetOrCreateSession (envs k) m w sessionID).2.1 (k + 1)).2.1,
       (runSameID envs sessionID n
          (Manager.GetOrCreateSession (envs k) m w sessionID).1
          (Manager.GetOrCreateSession (envs k) m w sessionID).2.1 (k + 1)).2.2.1,
       (Manager.GetOrCreateSession (envs k) m w sessionID).2.2 ::
        (runSameID envs sessionID n
          (Manager.GetOrCreateSession (envs k) m w sessionID).1
          (Manager.GetOrCreateSession (envs k) m w sessionID).2.1 (k + 1)).2.2.2)

/-- Once the session is published, every later caller takes the fast path
and returns the same session, with no further construction attempts. -/
theorem runSameID_hit (envs : Nat → Env) (sessionID : String) (s : SessionContext) :
    ∀ n m w k, lookupA m.sessions sessionID = some s →
      runSameID envs sessionID n m w k = (m, w, k, List.replicate n (.ok s)) := by
  intro n
  induction n with
  | zero => intro m w k hs; simp [runSameID]
  | succ n ih =>
    intro m w k hs
    simp only [runSameID, hs]
    rw [ih m w k hs]
    simp [List.replicate_succ]

/-- C4 amended: when the winning (first) construction attempt for an unknown
session id succeeds, exactly one connect-and-build sequence executes and
every one of the n+1 serialized callers receives the same session. (The
counterexample shows the claim's failure half is wrong: a failed attempt is
returned only to its own caller and later callers retry construction.) -/
theorem c4_amended_single_winner (envs : Nat → Env) (sessionID : String) (m : Manager)
    (w : World) (n : Nat) (s : SessionContext) (m1 : Manager) (w1 : World)
    (habs : lookupA m.sessions sessionID = none)
    (hfirst : Manager.GetOrCreateSession (envs 0) m w sessionID = (m1, w1, .ok s)) :
    runSameID envs sessionID (n + 1) m w 0 =
      (m1, w1, 1, List.replicate (n + 1) (.ok s)) := by
  have hpub : lookupA m1.sessions sessionID = some s := by
    rw [(getOrCreateSession_ok_spec (envs 0) m w sessionID habs m1 w1 s hfirst).1]
    exact lookupA_setAssoc_self _ _ _
  simp only [runSameID, habs, hfirst]
  rw [runSameID_hit envs sessionID s n m1 w1 (0 + 1) hpub]
  simp [List.replicate_succ]

/-- Every construction attempt fails, with a different error per attempt. -/
def envsFail : Nat → Env := fun k =>
  { envLeak with
    servers := ["a"]
    connect := fun _ => .error (if k = 0 then "boom0" else "boom1") }

/-- C4 counterexample: two serialized callers for the same unknown id under
failing construction execute TWO connect-and-build sequences and receive
DIFFERENT errors — refuting "exactly one connect-and-build sequence
executes ... or all receive the same error if construction fails". -/
theorem c4_counterexample :
    runSameID envsFail "s" 2 ⟨[]⟩ ⟨⟨[], []⟩, []⟩ 0 =
      (⟨[]⟩, ⟨⟨[], []⟩, []⟩, 2,
       [.error "failed to connect client hub: failed to connect to server a: boom0",
        .error "failed to connect client hub: failed to connect to server a: boom1"]) ∧
    ("failed to connect client hub: failed to connect to server a: boom0" : String) ≠
      "failed to connect client hub: failed to connect to server a: boom1" :=
  ⟨rfl, by decide⟩

/-- Witness for C4 amended: two callers, first construction succeeds —
one attempt, both callers get the same session. -/
theorem c4_amended_single_winner_witness :
    runSameID (fun _ => envOk) "s" 2 ⟨[]⟩ ⟨⟨[], []⟩, []⟩ 0 =
      (mgrOk, wOk, 1, List.replicate 2 (.ok sessOk)) :=
  c4_amended_single_winner (fun _ => envOk) "s" ⟨[]⟩ ⟨⟨[], []⟩, []⟩ 1 sessOk mgrOk wOk
    rfl rfl

end CodeBraid
